import Mathlib

/-!
# TrueColor — Color Analysis & Shade Matching Engine, formalised

A shallow embedding of the TrueColor engine (sRGB ↔ CIELAB conversion,
sample aggregation, dominant-tone extraction, undertone classification,
depth encoding, shade matching, catalog snapshot) together with proofs of
the specified properties.

The backend Python services (`app/services/skin_analysis.py`,
`app/services/shade_matcher.py`, …) are not part of the checked-in
sources; every engine definition below is therefore modelled from the
specification text (marked `Modelled from the spec:`).  The frontend
helpers (`rgbToHex` in `frontend/src/app/page.tsx`, the shades page
aggregation in `frontend/src/app/shades/page.tsx`) are embedded from the
actual TypeScript source.
-/

namespace TrueColor

/-! ## Data model -/

/-- Undertone classification produced by the Tone Classifier. -/
inductive Undertone
  | warm
  | cool
  | neutral
deriving DecidableEq, Repr

/-- Facial regions tagging each pixel sample. -/
inductive Region
  | forehead
  | leftCheek
  | rightCheek
  | noseBridge
  | chin
deriving DecidableEq, Repr

/-- An 8-bit RGB triple (channels are integers; validity 0..255 is stated
in theorems, and the converter clamps out-of-range channels). -/
structure RGB where
  r : ℤ
  g : ℤ
  b : ℤ
deriving DecidableEq, Repr

/-- A region-tagged pixel sample, as produced by the face-detection
collaborator. -/
structure PixelSample where
  rgb : RGB
  region : Region
deriving DecidableEq, Repr

/-- A CIELAB color with real-valued channels (the converter produces
irrational channel values via the 2.4 gamma and cube-root stages). -/
structure LabColor where
  L : ℝ
  A : ℝ
  B : ℝ

/-- A rational-valued LAB triple as stored in the catalog database
(`DECIMAL(6,2)` columns `lab_l`, `lab_a`, `lab_b`). -/
structure LabQ where
  L : ℚ
  A : ℚ
  B : ℚ
deriving DecidableEq, Repr

/-- A catalog shade record (`makeup_products` row). -/
structure ShadeRecord where
  brand : String
  productLine : String
  shadeName : String
  hexColor : String
  lab : LabQ
  undertone : Undertone
deriving DecidableEq, Repr

/-- Modelled from the spec: a CatalogSnapshot is an immutable ordered
collection of shade records; the list order is the catalog insertion
order used for stable tie-breaking. -/
def CatalogSnapshot : Type := List ShadeRecord

/-! ## 4.4 Tone Classifier — undertone rules and depth encoding -/

/-- Modelled from the spec: the undertone rule engine of the Tone
Classifier (`classify` in the missing `skin_analysis.py`): `warm` when
B > 15 and A > 8, else `cool` when B < 10 and A < 8, else `neutral`,
evaluated in this order. -/
def classify (A B : ℚ) : Undertone :=
  if 15 < B ∧ 8 < A then .warm
  else if B < 10 ∧ A < 8 then .cool
  else .neutral

/-- Modelled from the spec: the Depth digit of the encoded code — L is
clamped to its invariant domain [0,100] and mapped into 7 equal-width
buckets, bucket 1 the lightest, bucket 7 the deepest.  The digit is
rendered in the code string as the decimal character '1'..'7'. -/
def depthDigit (L : ℚ) : ℕ :=
  min 7 ((⌊(max 0 (min 100 L)) * 7 / 100⌋).toNat + 1)

/-! ## 4.5 Shade Matcher -/

/-- Modelled from the spec: squared CIE76 distance between a
representative LAB color and a catalog LAB value (rational arithmetic,
the exact square of the spec's `deltaE`). -/
def deltaE2 (p q : LabQ) : ℚ :=
  (p.L - q.L) ^ 2 + (p.A - q.A) ^ 2 + (p.B - q.B) ^ 2

/-- Modelled from the spec: `deltaE = sqrt((L1-L2)² + (A1-A2)² + (B1-B2)²)`,
the CIE76 Euclidean distance in LAB. -/
noncomputable def deltaE (p q : LabQ) : ℝ :=
  Real.sqrt ((deltaE2 p q : ℚ) : ℝ)

/-- The matcher's comparison key on indexed records: strictly smaller
squared distance first, ties broken by the original catalog index.
Ordering by squared distance equals ordering by `deltaE` because `sqrt`
is monotone on nonnegatives. -/
def shadeKeyLE (lab : LabQ) (a b : ℕ × ShadeRecord) : Prop :=
  deltaE2 lab a.2.lab < deltaE2 lab b.2.lab ∨
    (deltaE2 lab a.2.lab = deltaE2 lab b.2.lab ∧ a.1 ≤ b.1)

instance (lab : LabQ) : DecidableRel (shadeKeyLE lab) := fun _ _ => by
  unfold shadeKeyLE; infer_instance

/-- Modelled from the spec: the per-brand ranking of `match` — take the
snapshot's records of one brand (tagged with their catalog insertion
index), sort ascending by deltaE with stable tie-break by index, truncate
to `topN`. -/
def rankBrand (lab : LabQ) (catalog : CatalogSnapshot) (brand : String)
    (topN : ℕ) : List (ℕ × ShadeRecord) :=
  (List.insertionSort (shadeKeyLE lab)
    ((catalog.enum.filter (fun p => p.2.brand = brand)))).take topN

/-- Modelled from the spec: `match` (named `matchShades` here because
`match` is a Lean keyword) — one ranked list per brand occurring in the
snapshot. -/
def matchShades (lab : LabQ) (catalog : CatalogSnapshot) (topN : ℕ) :
    List (String × List (ℕ × ShadeRecord)) :=
  ((catalog.map (·.brand)).dedup).map fun b => (b, rankBrand lab catalog b topN)

/-- A demonstration representative color (used to instantiate matcher
theorems on concrete data). -/
def demoLab : LabQ := ⟨60, 10, 20⟩

/-- A demonstration one-brand catalog. -/
def demoCatalog : CatalogSnapshot :=
  [⟨"fenty", "Pro Filtr Foundation", "310", "#AA8866", ⟨60, 10, 20⟩, .warm⟩,
   ⟨"fenty", "Pro Filtr Foundation", "330", "#9A7856", ⟨55, 12, 22⟩, .warm⟩]

/-! ## 4.2 Skin Sample Aggregator -/

/-- Engine error taxonomy (section 7 of the spec). -/
inductive EngineError
  | insufficientSample
  | emptyCatalog
deriving DecidableEq, Repr

/-- Modelled from the spec: minimum number of valid samples, default 20. -/
def MIN_SAMPLES : ℕ := 20

/-- Modelled from the spec: the luminance used by the aggregator's
outlier filter.  The spec fixes only the acceptance band [5,250]; the
Rec.601 luma `0.299 R + 0.587 G + 0.114 B` is taken as the formula. -/
def luminance (c : RGB) : ℚ :=
  ((299 * c.r + 587 * c.g + 114 * c.b : ℤ) : ℚ) / 1000

/-- A sample passes the aggregator's filter when its luminance lies in
[5, 250]. -/
def isValidSample (s : PixelSample) : Bool :=
  decide (5 ≤ luminance s.rgb) && decide (luminance s.rgb ≤ 250)

/-- Modelled from the spec: `aggregate` — discard out-of-band samples,
fail with `InsufficientSample` when fewer than `MIN_SAMPLES` valid
samples remain. -/
def aggregate (samples : List PixelSample) :
    Except EngineError (List PixelSample) :=
  let valid := samples.filter isValidSample
  if valid.length < MIN_SAMPLES then .error .insufficientSample
  else .ok valid

/-- The aggregate-then-extract front of the pipeline: the extractor `f`
only runs on the aggregator's success value. -/
def aggregateThen (f : List PixelSample → Except EngineError LabColor)
    (samples : List PixelSample) : Except EngineError LabColor :=
  (aggregate samples).bind f

/-! ## 4.6 Catalog Snapshot -/

/-- Modelled from the spec: the observable outcome of one `load`/`reload`
attempt against the external catalog source. -/
inductive CatalogEvent
  | loadOk (s : CatalogSnapshot)
  | loadFail

/-- Modelled from the spec: `reload` publishes the freshly built snapshot
on success and retains the prior snapshot on failure. -/
def stepSnapshot (st : CatalogSnapshot) : CatalogEvent → CatalogSnapshot
  | .loadOk s => s
  | .loadFail => st

/-- The store state after an initial successful `load` and a sequence of
reload outcomes. -/
def runSnapshot (init : CatalogSnapshot) (events : List CatalogEvent) :
    CatalogSnapshot :=
  events.foldl stepSnapshot init

/-- Modelled from the spec: `current()` returns the latest successfully
loaded snapshot held by the store. -/
def current (st : CatalogSnapshot) : CatalogSnapshot := st

/-- Reference description of "the latest successfully loaded snapshot":
the payload of the last successful load event, or the initially loaded
snapshot when no reload succeeded. -/
def lastLoaded (init : CatalogSnapshot) (events : List CatalogEvent) :
    CatalogSnapshot :=
  match events.reverse.find? (fun e => match e with
    | .loadOk _ => true
    | .loadFail => false) with
  | some (.loadOk s) => s
  | _ => init

/-! ## Frontend: `rgbToHex` (frontend/src/app/page.tsx, lines 263-270) -/

/-- Lowercase hexadecimal digit character, as produced by JavaScript
`Number.prototype.toString(16)`. -/
def hexDigitChar (n : ℕ) : Char :=
  if n < 10 then Char.ofNat (48 + n) else Char.ofNat (87 + n)

/-- Hexadecimal digit list of a natural number, most significant digit
first, no leading zeros (single digit for numbers below 16) — the digits
JavaScript `toString(16)` emits for a nonnegative integer. -/
def hexDigits (n : ℕ) : List Char :=
  if _h : n < 16 then [hexDigitChar n]
  else hexDigits (n / 16) ++ [hexDigitChar (n % 16)]
decreasing_by
  exact Nat.div_lt_self (by omega) (by omega)

/-- JavaScript `n.toString(16)` on an integer: a minus sign followed by
the digits of the absolute value when negative. -/
def jsToString16 (n : ℤ) : List Char :=
  if n < 0 then '-' :: hexDigits n.natAbs else hexDigits n.natAbs

/-- The `toHex` helper of `onAnalyze` (page.tsx line 265): render in base
16 and left-pad with one '0' when the rendering has a single character.
(`Math.round` is the identity on the integer channels considered here;
strings are modelled as their character lists.) -/
def toHex (n : ℤ) : List Char :=
  if (jsToString16 n).length = 1 then '0' :: jsToString16 n else jsToString16 n

/-- The `rgbToHex` helper of `onAnalyze` (page.tsx lines 264-270):
concatenation of the three channel renderings, without a '#' prefix. -/
def rgbToHex (r g b : ℤ) : List Char :=
  toHex r ++ toHex g ++ toHex b

/-- A character is a lowercase hexadecimal digit. -/
def isHexDigit (c : Char) : Bool :=
  (decide ('0' ≤ c) && decide (c ≤ '9')) || (decide ('a' ≤ c) && decide (c ≤ 'f'))

/-- A well-formed 6-character hex color: exactly six lowercase hex
digits. -/
def wellFormedHex6 (l : List Char) : Bool :=
  decide (l.length = 6) && l.all isHexDigit

/-- Numeric value of a lowercase hex digit character. -/
def hexVal (c : Char) : ℕ :=
  if 97 ≤ c.toNat then c.toNat - 87 else c.toNat - 48

/-- Parse a 6-character hex color into its three channel values. -/
def parseHex6 (l : List Char) : Option (ℕ × ℕ × ℕ) :=
  match l with
  | [c1, c2, c3, c4, c5, c6] =>
      some (16 * hexVal c1 + hexVal c2,
            16 * hexVal c3 + hexVal c4,
            16 * hexVal c5 + hexVal c6)
  | _ => none

/-! ## Frontend: shades page (frontend/src/app/shades/page.tsx) -/

/-- The `AnalysisResult` shape read from `sessionStorage` on the shades
page; each brand array may be absent from the stored JSON (`none`), which
the page defends against with `|| []`. -/
structure AnalysisResult where
  undertone : String
  pantoneFamily : String
  fenty : Option (List String)
  nars : Option (List String)
  tooFaced : Option (List String)
  mac : Option (List String)
  maybelline : Option (List String)
  loreal : Option (List String)
deriving DecidableEq, Repr

/-- One entry of the page's `brandData` array. -/
structure BrandEntry where
  key : String
  name : String
  emoji : String
  shades : List String
deriving DecidableEq, Repr

/-- The `brandData` array (shades/page.tsx lines 63-70): the six brands
in page order, `result.<brand> || []` modelled as `Option.getD []`. -/
def brandData (res : AnalysisResult) : List BrandEntry :=
  [⟨"fenty", "Fenty Beauty", "💎", res.fenty.getD []⟩,
   ⟨"nars", "NARS", "💄", res.nars.getD []⟩,
   ⟨"tooFaced", "Too Faced", "✨", res.tooFaced.getD []⟩,
   ⟨"mac", "MAC", "🎨", res.mac.getD []⟩,
   ⟨"maybelline", "Maybelline", "💅", res.maybelline.getD []⟩,
   ⟨"loreal", "L'Oréal", "🌟", res.loreal.getD []⟩]

/-- The `allShades` accumulation (shades/page.tsx lines 61-81): for each
brand in order, push one row per shade name. -/
def allShades (res : AnalysisResult) :
    List (String × String × String × String) :=
  (brandData res).foldl
    (fun acc b => acc ++ b.shades.map fun s => (b.name, b.key, s, b.emoji)) []

/-- The Total Matches figure displayed by the page: `allShades.length`. -/
def totalMatches (res : AnalysisResult) : ℕ :=
  (allShades res).length

/-- The brand sections actually rendered (shades/page.tsx line 125:
`if (brand.shades.length === 0) return null`). -/
def renderedBrands (res : AnalysisResult) : List BrandEntry :=
  (brandData res).filter fun b => !(b.shades.isEmpty)

/-! ## 4.1 Color Space Converter

Modelled from the spec: sRGB gamma decoding (linear segment below
0.04045, power law 2.4 above), linear RGB → CIEXYZ via the standard
sRGB/D65 3×3 matrix, CIEXYZ → CIELAB with the standard piecewise
cube-root `f`, D65 reference white; the inverse path undoes each stage
exactly, and `labToRgb` clamps its output to [0,255].  Both directions
are total Lean functions: pure, deterministic, no error path. -/

/-- Clamp an integer channel to the valid 8-bit range. -/
def clampChan (n : ℤ) : ℤ := max 0 (min 255 n)

/-- Clamp a real output channel to [0,255]. -/
noncomputable def clampR (x : ℝ) : ℝ := max 0 (min 255 x)

/-- sRGB gamma decoding, per channel normalized to [0,1]. -/
noncomputable def srgbDecode (c : ℝ) : ℝ :=
  if c ≤ 0.04045 then c / 12.92
  else ((c + 0.055) / 1.055) ^ (2.4 : ℝ)

/-- sRGB gamma encoding, the exact inverse of `srgbDecode`.  The linear
branch is selected exactly on the image of the decoder's linear branch,
`12.92 * v ≤ 0.04045`, i.e. `v ≤ 809/258400` (numerically the standard
`0.0031308` threshold). -/
noncomputable def srgbEncode (v : ℝ) : ℝ :=
  if 12.92 * v ≤ 0.04045 then 12.92 * v
  else 1.055 * v ^ ((2.4 : ℝ)⁻¹) - 0.055

/-- Entries of the standard sRGB/D65 linear-RGB → XYZ matrix. -/
def m11 : ℝ := 0.4124
def m12 : ℝ := 0.3576
def m13 : ℝ := 0.1805
def m21 : ℝ := 0.2126
def m22 : ℝ := 0.7152
def m23 : ℝ := 0.0722
def m31 : ℝ := 0.0193
def m32 : ℝ := 0.1192
def m33 : ℝ := 0.9505

/-- Determinant of the sRGB matrix. -/
def detM : ℝ :=
  m11 * (m22 * m33 - m23 * m32) - m12 * (m21 * m33 - m23 * m31) +
    m13 * (m21 * m32 - m22 * m31)

/-- Linear RGB → CIEXYZ. -/
def xyzOfLinear (r g b : ℝ) : ℝ × ℝ × ℝ :=
  (m11 * r + m12 * g + m13 * b,
   m21 * r + m22 * g + m23 * b,
   m31 * r + m32 * g + m33 * b)

/-- CIEXYZ → linear RGB: the exact inverse matrix (adjugate over the
determinant). -/
noncomputable def linearOfXyz (x y z : ℝ) : ℝ × ℝ × ℝ :=
  (((m22 * m33 - m23 * m32) * x + (m13 * m32 - m12 * m33) * y +
      (m12 * m23 - m13 * m22) * z) / detM,
   ((m23 * m31 - m21 * m33) * x + (m11 * m33 - m13 * m31) * y +
      (m13 * m21 - m11 * m23) * z) / detM,
   ((m21 * m32 - m22 * m31) * x + (m12 * m31 - m11 * m32) * y +
      (m11 * m22 - m12 * m21) * z) / detM)

/-- D65 reference white. -/
def whiteX : ℝ := 0.95047
def whiteY : ℝ := 1
def whiteZ : ℝ := 1.08883

/-- The standard piecewise cube-root/linear `f` of the XYZ → LAB stage
(δ = 6/29). -/
noncomputable def fLab (t : ℝ) : ℝ :=
  if (6 / 29 : ℝ) ^ (3 : ℕ) < t then t ^ ((3 : ℝ)⁻¹)
  else t / (3 * (6 / 29) ^ (2 : ℕ)) + 4 / 29

/-- The exact inverse of `fLab`. -/
noncomputable def fLabInv (s : ℝ) : ℝ :=
  if (6 / 29 : ℝ) < s then s ^ (3 : ℕ)
  else 3 * (6 / 29) ^ (2 : ℕ) * (s - 4 / 29)

/-- Normalize a (clamped) integer channel to [0,1]. -/
noncomputable def chan01 (n : ℤ) : ℝ := ((clampChan n : ℤ) : ℝ) / 255

/-- Gamma-decoded linear value of an integer channel. -/
noncomputable def linOf (n : ℤ) : ℝ := srgbDecode (chan01 n)

/-- CIEXYZ of an RGB triple. -/
noncomputable def xyzOfRgb (c : RGB) : ℝ × ℝ × ℝ :=
  xyzOfLinear (linOf c.r) (linOf c.g) (linOf c.b)

/-- `rgbToLab`: sRGB (8-bit channels, clamped) → CIELAB. -/
noncomputable def rgbToLab (c : RGB) : LabColor :=
  ⟨116 * fLab ((xyzOfRgb c).2.1 / whiteY) - 16,
   500 * (fLab ((xyzOfRgb c).1 / whiteX) - fLab ((xyzOfRgb c).2.1 / whiteY)),
   200 * (fLab ((xyzOfRgb c).2.1 / whiteY) - fLab ((xyzOfRgb c).2.2 / whiteZ))⟩

/-- The `f`-space coordinates recovered from a LAB color. -/
noncomputable def fyOf (lab : LabColor) : ℝ := (lab.L + 16) / 116
noncomputable def fxOf (lab : LabColor) : ℝ := fyOf lab + lab.A / 500
noncomputable def fzOf (lab : LabColor) : ℝ := fyOf lab - lab.B / 200

/-- CIEXYZ recovered from a LAB color. -/
noncomputable def xyzOfLab (lab : LabColor) : ℝ × ℝ × ℝ :=
  (whiteX * fLabInv (fxOf lab), whiteY * fLabInv (fyOf lab),
   whiteZ * fLabInv (fzOf lab))

/-- Final output channel: scale to [0,255], clamp, round. -/
noncomputable def outChan (v : ℝ) : ℤ := round (clampR (255 * srgbEncode v))

/-- `labToRgb`: CIELAB → sRGB with output clamped to [0,255]. -/
noncomputable def labToRgb (lab : LabColor) : RGB :=
  ⟨outChan (linearOfXyz (xyzOfLab lab).1 (xyzOfLab lab).2.1
      (xyzOfLab lab).2.2).1,
   outChan (linearOfXyz (xyzOfLab lab).1 (xyzOfLab lab).2.1
      (xyzOfLab lab).2.2).2.1,
   outChan (linearOfXyz (xyzOfLab lab).1 (xyzOfLab lab).2.1
      (xyzOfLab lab).2.2).2.2⟩

/-! ## 4.3 Dominant Tone Extractor

Modelled from the spec: k-means (k = 3) over the samples in LAB space,
Euclidean distance, deterministic seeded initialization, at most 50
iterations or until centroid movement is below ε (taken as 10⁻³,
compared on squared distances), empty clusters reseeded to the sample
farthest from its nearest centroid, representative cluster chosen as the
most populous one with centroid lightness in [20,90], falling back to
the most populous cluster overall; identical samples short-circuit the
clustering and are returned directly. -/

/-- Number of clusters (default k = 3). -/
def kClusters : ℕ := 3

/-- Maximum number of k-means iterations (default 50). -/
def MAX_ITER : ℕ := 50

/-- Squared convergence threshold: centroid movement below ε = 10⁻³,
compared as squared distance. -/
noncomputable def EPS2 : ℝ := 1 / 1000000

/-- Squared Euclidean distance in LAB space. -/
noncomputable def dist2 (p q : LabColor) : ℝ :=
  (p.L - q.L) ^ 2 + (p.A - q.A) ^ 2 + (p.B - q.B) ^ 2

/-- Index of the centroid nearest to a point (first wins on ties). -/
noncomputable def nearestIdx (cs : List LabColor) (p : LabColor) : ℕ :=
  ((cs.enum.map fun ic => (ic.1, dist2 ic.2 p)).foldl
    (fun best cur => if cur.2 < best.2 then cur else best)
    (0, dist2 (cs.headD ⟨0, 0, 0⟩) p)).1

/-- Members assigned to cluster `i`. -/
noncomputable def clusterMembers (cs : List LabColor) (pts : List LabColor)
    (i : ℕ) : List LabColor :=
  pts.filter fun p => decide (nearestIdx cs p = i)

/-- Mean of a cluster's members. -/
noncomputable def meanPoint (pts : List LabColor) : LabColor :=
  ⟨(pts.map (·.L)).sum / (pts.length : ℝ),
   (pts.map (·.A)).sum / (pts.length : ℝ),
   (pts.map (·.B)).sum / (pts.length : ℝ)⟩

/-- The sample farthest from its nearest centroid (used to reseed an
emptied cluster). -/
noncomputable def farthestFromNearest (cs : List LabColor)
    (pts : List LabColor) : LabColor :=
  pts.foldl
    (fun best p =>
      if dist2 (cs.getD (nearestIdx cs best) ⟨0, 0, 0⟩) best <
          dist2 (cs.getD (nearestIdx cs p) ⟨0, 0, 0⟩) p then p else best)
    (pts.headD ⟨0, 0, 0⟩)

/-- One k-means update: recompute every centroid as its cluster mean,
reseeding clusters that lost all members. -/
noncomputable def updateCentroids (cs : List LabColor) (pts : List LabColor) :
    List LabColor :=
  cs.enum.map fun ic =>
    let mem := clusterMembers cs pts ic.1
    if mem.isEmpty then farthestFromNearest cs pts else meanPoint mem

/-- Largest squared centroid movement between two centroid lists. -/
noncomputable def maxMove (old new : List LabColor) : ℝ :=
  ((old.zip new).map fun pq => dist2 pq.1 pq.2).foldl max 0

/-- Iterate k-means updates until convergence or the fuel (max
iterations) is exhausted. -/
noncomputable def kmeansIter : ℕ → List LabColor → List LabColor →
    List LabColor
  | 0, cs, _ => cs
  | fuel + 1, cs, pts =>
      let cs' := updateCentroids cs pts
      if maxMove cs cs' < EPS2 then cs' else kmeansIter fuel cs' pts

/-- The linear congruential generator driving the deterministic seeded
initialization. -/
def lcg (s : ℕ) : ℕ := (1103515245 * s + 12345) % 2147483648

/-- Deterministic seeded initialization: pick `k` samples at
LCG-generated indices. -/
noncomputable def initCentroids (seed : ℕ) (k : ℕ) (pts : List LabColor) :
    List LabColor :=
  (List.range k).map fun i => pts.getD (lcg^[i + 1] seed % pts.length) ⟨0, 0, 0⟩

/-- Representative-cluster selection: the most populous cluster whose
centroid lightness lies in the plausible skin band [20,90]; if none
qualifies, the most populous cluster overall. -/
noncomputable def selectCluster (cs : List LabColor) (pts : List LabColor) :
    LabColor :=
  let withCount := cs.enum.map fun ic =>
    (ic.2, (clusterMembers cs pts ic.1).length)
  let plaus := withCount.filter fun cc =>
    decide (20 ≤ cc.1.L) && decide (cc.1.L ≤ 90)
  let pick := fun (l : List (LabColor × ℕ)) =>
    l.foldl (fun best cur => if best.2 < cur.2 then cur else best)
      (l.headD (⟨0, 0, 0⟩, 0))
  if plaus.isEmpty then (pick withCount).1 else (pick plaus).1

open scoped Classical in
/-- `extract`: convert the aggregated samples to LAB and produce the
representative LabColor; numerically identical samples skip the
clustering and are returned directly (the documented degenerate
shortcut), otherwise seeded k-means runs. -/
noncomputable def extract (seed : ℕ) (samples : List RGB) : LabColor :=
  match samples.map rgbToLab with
  | [] => ⟨0, 0, 0⟩
  | l0 :: rest =>
      if ∀ l ∈ l0 :: rest, l = l0 then l0
      else selectCluster
        (kmeansIter MAX_ITER (initCentroids seed kClusters (l0 :: rest))
          (l0 :: rest))
        (l0 :: rest)

/-! ## Theorems -/

/-- C1: for every LabColor input, `classify` returns `warm` exactly when
B > 15 and A > 8, `cool` exactly when B < 10 and A < 8, and `neutral` in
every other case; exactly one of the three undertones is produced for
every (A,B) pair (the rules are mutually exclusive and jointly
exhaustive). -/
theorem classify_partition_c1 (A B : ℚ) :
    (classify A B = .warm ↔ (15 < B ∧ 8 < A)) ∧
    (classify A B = .cool ↔ (B < 10 ∧ A < 8)) ∧
    (classify A B = .neutral ↔ (¬(15 < B ∧ 8 < A) ∧ ¬(B < 10 ∧ A < 8))) ∧
    (classify A B = .warm ∨ classify A B = .cool ∨
      classify A B = .neutral) := by
  by_cases h1 : 15 < B ∧ 8 < A
  · have h2 : ¬(B < 10 ∧ A < 8) := fun hc => by linarith [h1.1, hc.1]
    simp [classify, h1, h2]
  · by_cases h2 : B < 10 ∧ A < 8
    · simp [classify, h1, h2]
    · simp [classify, h1, h2]

/-- C7: the Depth digit maps L into 7 equal-width buckets over [0,100]
(digit d covers [(d-1)·100/7, d·100/7), the deepest bucket closed at
100) and is monotone in L. -/
theorem depthDigit_buckets_monotone_c7 (L1 L2 : ℚ) (h : L1 ≤ L2) :
    depthDigit L1 ≤ depthDigit L2 ∧
    (0 ≤ L1 → L1 ≤ 100 →
      1 ≤ depthDigit L1 ∧ depthDigit L1 ≤ 7 ∧
      ((depthDigit L1 : ℚ) - 1) * (100 / 7) ≤ L1 ∧
      (L1 < (depthDigit L1 : ℚ) * (100 / 7) ∨ depthDigit L1 = 7)) := by
  constructor
  · have hc : max 0 (min 100 L1) ≤ max 0 (min 100 L2) :=
      max_le_max le_rfl (min_le_min le_rfl h)
    have hd : max 0 (min 100 L1) * 7 / 100 ≤ max 0 (min 100 L2) * 7 / 100 := by
      linarith
    have hf := Int.floor_le_floor hd
    unfold depthDigit
    exact min_le_min le_rfl (Nat.add_le_add_right (Int.toNat_le_toNat hf) 1)
  · intro h0 h100
    have hclamp : max 0 (min 100 L1) = L1 := by
      rw [min_eq_right h100, max_eq_right h0]
    have hdd : depthDigit L1 = min 7 ((⌊L1 * 7 / 100⌋).toNat + 1) := by
      unfold depthDigit; rw [hclamp]
    have hk0 : 0 ≤ ⌊L1 * 7 / 100⌋ := Int.floor_nonneg.mpr (by positivity)
    have hkle : ((⌊L1 * 7 / 100⌋ : ℤ) : ℚ) ≤ L1 * 7 / 100 := Int.floor_le _
    have hklt : L1 * 7 / 100 < (⌊L1 * 7 / 100⌋ : ℚ) + 1 :=
      Int.lt_floor_add_one _
    by_cases h6 : 7 ≤ (⌊L1 * 7 / 100⌋).toNat + 1
    · have hd7 : depthDigit L1 = 7 := by rw [hdd]; omega
      refine ⟨by omega, by omega, ?_, Or.inr hd7⟩
      rw [hd7]
      have h6' : (6 : ℚ) ≤ ((⌊L1 * 7 / 100⌋ : ℤ) : ℚ) := by
        have : (6 : ℤ) ≤ ⌊L1 * 7 / 100⌋ := by omega
        exact_mod_cast this
      push_cast
      linarith
    · have hdv : depthDigit L1 = (⌊L1 * 7 / 100⌋).toNat + 1 := by
        rw [hdd]; omega
      have hcast : (((⌊L1 * 7 / 100⌋).toNat : ℚ)) =
          ((⌊L1 * 7 / 100⌋ : ℤ) : ℚ) := by
        exact_mod_cast congrArg (fun n : ℤ => (n : ℚ))
          (Int.toNat_of_nonneg hk0)
      refine ⟨by omega, by omega, ?_, Or.inl ?_⟩
      · rw [hdv]; push_cast; rw [hcast]; linarith
      · rw [hdv]; push_cast; rw [hcast]; linarith

/-- Witness for C7 at L1 = 30, L2 = 60. -/
theorem depthDigit_witness_c7 :
    depthDigit 30 ≤ depthDigit 60 ∧
    (1 ≤ depthDigit 30 ∧ depthDigit 30 ≤ 7 ∧
      ((depthDigit 30 : ℚ) - 1) * (100 / 7) ≤ 30 ∧
      ((30 : ℚ) < (depthDigit 30 : ℚ) * (100 / 7) ∨ depthDigit 30 = 7)) :=
  ⟨(depthDigit_buckets_monotone_c7 30 60 (by norm_num)).1,
   (depthDigit_buckets_monotone_c7 30 60 (by norm_num)).2
     (by norm_num) (by norm_num)⟩

/-- C10: the shades page's Total Matches figure equals the sum of the
lengths of the six per-brand arrays (a missing array counting as empty),
and a brand with zero shades renders no section. -/
theorem shades_total_c10 (res : AnalysisResult) :
    totalMatches res =
      (res.fenty.getD []).length + (res.nars.getD []).length +
      (res.tooFaced.getD []).length + (res.mac.getD []).length +
      (res.maybelline.getD []).length + (res.loreal.getD []).length ∧
    ∀ b ∈ brandData res, b.shades.length = 0 → b ∉ renderedBrands res := by
  constructor
  · simp only [totalMatches, allShades, brandData, List.foldl_cons,
      List.foldl_nil, List.nil_append, List.length_append, List.length_map]
  · intro b _hb hlen hmem
    rw [renderedBrands, List.mem_filter] at hmem
    have hempty : b.shades.isEmpty = true := by
      have : b.shades = [] := List.length_eq_zero.mp hlen
      rw [this]; rfl
    rw [hempty] at hmem
    simp at hmem

/-- C8: `current` always returns the latest successfully loaded
snapshot; a failed reload retains the prior snapshot unchanged; and the
returned snapshot is always one that was fully built by a successful
load (never a partially-built one). -/
theorem snapshot_current_c8 (init : CatalogSnapshot)
    (events : List CatalogEvent) :
    current (runSnapshot init events) = lastLoaded init events ∧
    (∀ st, current (stepSnapshot st .loadFail) = current st) ∧
    (current (runSnapshot init events) = init ∨
      CatalogEvent.loadOk (current (runSnapshot init events)) ∈ events) := by
  refine ⟨?_, fun st => rfl, ?_⟩ <;>
  · induction events using List.reverseRecOn with
    | nil => simp [runSnapshot, lastLoaded, current]
    | append_singleton es e ih =>
        cases e with
        | loadOk s =>
            simp [runSnapshot, List.foldl_append, stepSnapshot, current,
              lastLoaded, List.find?]
        | loadFail =>
            have hrun : runSnapshot init (es ++ [CatalogEvent.loadFail]) =
                runSnapshot init es := by
              simp [runSnapshot, List.foldl_append, stepSnapshot]
            have hlast : lastLoaded init (es ++ [CatalogEvent.loadFail]) =
                lastLoaded init es := by
              simp [lastLoaded, List.find?]
            first
            | (rw [current] at ih ⊢; rw [hrun, hlast]; exact ih)
            | (rw [current] at ih ⊢; rw [hrun]
               rcases ih with h | h
               · exact Or.inl h
               · exact Or.inr (List.mem_append_left _ h))

/-- C4: `aggregate` fails with `InsufficientSample` precisely when fewer
than `MIN_SAMPLES` valid samples remain after filtering, and on that
error the pipeline short-circuits before the extractor runs (the result
is the error for every possible extractor `f`). -/
theorem aggregate_insufficient_c4 (samples : List PixelSample)
    (f : List PixelSample → Except EngineError LabColor)
    (h : (samples.filter isValidSample).length < MIN_SAMPLES) :
    aggregate samples = .error .insufficientSample ∧
    aggregateThen f samples = .error .insufficientSample ∧
    ∀ samples2 : List PixelSample,
      aggregate samples2 = .error .insufficientSample →
      (samples2.filter isValidSample).length < MIN_SAMPLES := by
  refine ⟨?_, ?_, ?_⟩
  · simp [aggregate, h]
  · simp [aggregateThen, aggregate, h, Except.bind]
  · intro samples2 h2
    by_contra hge
    simp [aggregate, hge] at h2

/-- Witness for C4: five identical mid-gray samples are too few. -/
theorem aggregate_witness_c4 :
    aggregate (List.replicate 5 ⟨⟨100, 100, 100⟩, .forehead⟩) =
      .error .insufficientSample ∧
    aggregateThen (fun _ => .ok ⟨0, 0, 0⟩)
      (List.replicate 5 ⟨⟨100, 100, 100⟩, .forehead⟩) =
      .error .insufficientSample ∧
    ∀ samples2 : List PixelSample,
      aggregate samples2 = .error .insufficientSample →
      (samples2.filter isValidSample).length < MIN_SAMPLES :=
  aggregate_insufficient_c4 _ _ (by
    have hle := List.length_filter_le isValidSample
      (List.replicate 5 (⟨⟨100, 100, 100⟩, .forehead⟩ : PixelSample))
    simp only [List.length_replicate] at hle
    simp only [MIN_SAMPLES]
    omega)

/-! ### Helper lemmas for the frontend hex rendering -/

theorem hexDigitChar_isHex (n : ℕ) (h : n < 16) :
    isHexDigit (hexDigitChar n) = true := by
  interval_cases n <;> decide

theorem hexVal_hexDigitChar (n : ℕ) (h : n < 16) :
    hexVal (hexDigitChar n) = n := by
  interval_cases n <;> decide

theorem hexDigits_lt16 (n : ℕ) (h : n < 16) :
    hexDigits n = [hexDigitChar n] := by
  rw [hexDigits]
  simp [h]

theorem hexDigits_two (n : ℕ) (h16 : 16 ≤ n) (h256 : n < 256) :
    hexDigits n = [hexDigitChar (n / 16), hexDigitChar (n % 16)] := by
  have hlt : ¬ n < 16 := by omega
  have hd : n / 16 < 16 := by omega
  rw [hexDigits]
  simp [hlt, hexDigits_lt16 _ hd]

theorem hexDigits_length_pos (n : ℕ) : 1 ≤ (hexDigits n).length := by
  rw [hexDigits]
  split <;> simp

theorem hexDigits_length_ge2 (n : ℕ) (h : 16 ≤ n) :
    2 ≤ (hexDigits n).length := by
  have hlt : ¬ n < 16 := by omega
  rw [hexDigits]
  simp only [hlt, dite_false]
  have := hexDigits_length_pos (n / 16)
  simp only [List.length_append, List.length_cons, List.length_nil]
  omega

theorem hexDigits_length_ge3 (n : ℕ) (h : 256 ≤ n) :
    3 ≤ (hexDigits n).length := by
  have hlt : ¬ n < 16 := by omega
  rw [hexDigits]
  simp only [hlt, dite_false]
  have := hexDigits_length_ge2 (n / 16) (by omega)
  simp only [List.length_append, List.length_cons, List.length_nil]
  omega

theorem toHex_pair (n : ℤ) (h0 : 0 ≤ n) (h255 : n ≤ 255) :
    toHex n = [hexDigitChar (n.toNat / 16), hexDigitChar (n.toNat % 16)] := by
  have hneg : ¬ n < 0 := by omega
  have habs : n.natAbs = n.toNat := by omega
  have hj : jsToString16 n = hexDigits n.toNat := by
    unfold jsToString16
    rw [if_neg hneg, habs]
  unfold toHex
  rw [hj]
  by_cases h16 : n.toNat < 16
  · rw [hexDigits_lt16 _ h16]
    have hdiv : n.toNat / 16 = 0 := by omega
    have hmod : n.toNat % 16 = n.toNat := Nat.mod_eq_of_lt h16
    rw [hdiv, hmod]
    have hl1 : ([hexDigitChar n.toNat] : List Char).length = 1 := rfl
    rw [if_pos hl1]
    have h0c : hexDigitChar 0 = '0' := by decide
    rw [h0c]
  · have h256 : n.toNat < 256 := by omega
    rw [hexDigits_two _ (by omega) h256]
    have hl2 : ¬ ([hexDigitChar (n.toNat / 16),
        hexDigitChar (n.toNat % 16)] : List Char).length = 1 := by
      simp
    rw [if_neg hl2]

theorem jsToString16_length_pos (n : ℤ) : 1 ≤ (jsToString16 n).length := by
  unfold jsToString16
  split
  · simp
  · exact hexDigits_length_pos _

theorem toHex_length_ge2 (n : ℤ) : 2 ≤ (toHex n).length := by
  have h1 := jsToString16_length_pos n
  unfold toHex
  by_cases hl : (jsToString16 n).length = 1
  · rw [if_pos hl]
    simp only [List.length_cons]
    omega
  · rw [if_neg hl]
    omega

theorem toHex_neg (n : ℤ) (h : n < 0) :
    toHex n = '-' :: hexDigits n.natAbs := by
  have hj : jsToString16 n = '-' :: hexDigits n.natAbs := by
    unfold jsToString16
    rw [if_pos h]
  have hp := hexDigits_length_pos n.natAbs
  have hlen : ¬ (jsToString16 n).length = 1 := by
    rw [hj]
    simp only [List.length_cons]
    omega
  unfold toHex
  rw [if_neg hlen, hj]

theorem toHex_length_big (n : ℤ) (h : 255 < n) : 3 ≤ (toHex n).length := by
  have hneg : ¬ n < 0 := by omega
  have habs : n.natAbs = n.toNat := by omega
  have h3 : 3 ≤ (hexDigits n.natAbs).length := by
    rw [habs]
    exact hexDigits_length_ge3 _ (by omega)
  have hj : jsToString16 n = hexDigits n.natAbs := by
    unfold jsToString16
    rw [if_neg hneg]
  unfold toHex
  rw [hj]
  by_cases hl : (hexDigits n.natAbs).length = 1
  · exact absurd hl (by omega)
  · rw [if_neg hl]
    exact h3

theorem mem_rgbToHex_of_neg (r g b : ℤ) (hr : r < 0 ∨ g < 0 ∨ b < 0) :
    '-' ∈ rgbToHex r g b := by
  unfold rgbToHex
  rcases hr with h | h | h
  · rw [toHex_neg r h]
    simp
  · rw [toHex_neg g h]
    simp
  · rw [toHex_neg b h]
    simp

/-- C9: for integer channels in [0,255], `rgbToHex` produces exactly six
lowercase hex digits whose three 2-digit groups parse back to the input
channels; for any channel outside [0,255] the result is not a
well-formed 6-character hex color (no clamping is performed). -/
theorem rgbToHex_c9 (r g b : ℤ) :
    (0 ≤ r → r ≤ 255 → 0 ≤ g → g ≤ 255 → 0 ≤ b → b ≤ 255 →
      wellFormedHex6 (rgbToHex r g b) = true ∧
      parseHex6 (rgbToHex r g b) = some (r.toNat, g.toNat, b.toNat)) ∧
    (¬(0 ≤ r ∧ r ≤ 255 ∧ 0 ≤ g ∧ g ≤ 255 ∧ 0 ≤ b ∧ b ≤ 255) →
      wellFormedHex6 (rgbToHex r g b) = false) := by
  constructor
  · intro hr0 hr1 hg0 hg1 hb0 hb1
    have er := toHex_pair r hr0 hr1
    have eg := toHex_pair g hg0 hg1
    have eb := toHex_pair b hb0 hb1
    have hrd : r.toNat / 16 < 16 := by omega
    have hrm : r.toNat % 16 < 16 := Nat.mod_lt _ (by omega)
    have hgd : g.toNat / 16 < 16 := by omega
    have hgm : g.toNat % 16 < 16 := Nat.mod_lt _ (by omega)
    have hbd : b.toNat / 16 < 16 := by omega
    have hbm : b.toNat % 16 < 16 := Nat.mod_lt _ (by omega)
    have hlist : rgbToHex r g b =
        [hexDigitChar (r.toNat / 16), hexDigitChar (r.toNat % 16),
         hexDigitChar (g.toNat / 16), hexDigitChar (g.toNat % 16),
         hexDigitChar (b.toNat / 16), hexDigitChar (b.toNat % 16)] := by
      unfold rgbToHex
      rw [er, eg, eb]
      rfl
    constructor
    · rw [hlist]
      unfold wellFormedHex6
      simp only [List.length_cons, List.length_nil, List.all_cons,
        List.all_nil]
      rw [hexDigitChar_isHex _ hrd, hexDigitChar_isHex _ hrm,
        hexDigitChar_isHex _ hgd, hexDigitChar_isHex _ hgm,
        hexDigitChar_isHex _ hbd, hexDigitChar_isHex _ hbm]
      rfl
    · rw [hlist]
      simp only [parseHex6]
      rw [hexVal_hexDigitChar _ hrd, hexVal_hexDigitChar _ hrm,
        hexVal_hexDigitChar _ hgd, hexVal_hexDigitChar _ hgm,
        hexVal_hexDigitChar _ hbd, hexVal_hexDigitChar _ hbm]
      rw [Nat.div_add_mod, Nat.div_add_mod, Nat.div_add_mod]
  · intro hout
    by_cases hneg : r < 0 ∨ g < 0 ∨ b < 0
    · have hm := mem_rgbToHex_of_neg r g b hneg
      have hall : (rgbToHex r g b).all isHexDigit = false := by
        rw [Bool.eq_false_iff]
        intro hall
        have := List.all_eq_true.mp hall '-' hm
        exact absurd this (by decide)
      unfold wellFormedHex6
      rw [hall]
      exact Bool.and_false _
    · push_neg at hneg
      have hbig : 255 < r ∨ 255 < g ∨ 255 < b := by omega
      have hlen : 7 ≤ (rgbToHex r g b).length := by
        unfold rgbToHex
        have lr := toHex_length_ge2 r
        have lg := toHex_length_ge2 g
        have lb := toHex_length_ge2 b
        simp only [List.length_append]
        rcases hbig with h | h | h
        · have := toHex_length_big r h
          omega
        · have := toHex_length_big g h
          omega
        · have := toHex_length_big b h
          omega
      unfold wellFormedHex6
      have : decide ((rgbToHex r g b).length = 6) = false := by
        simp only [decide_eq_false_iff_not]
        omega
      rw [this]
      exact Bool.false_and _

/-- Witness for C9: the valid triple (255, 0, 171) and the out-of-range
triple (300, 0, 0). -/
theorem rgbToHex_witness_c9 :
    (wellFormedHex6 (rgbToHex 255 0 171) = true ∧
      parseHex6 (rgbToHex 255 0 171) =
        some ((255 : ℤ).toNat, (0 : ℤ).toNat, (171 : ℤ).toNat)) ∧
    wellFormedHex6 (rgbToHex 300 0 0) = false :=
  ⟨(rgbToHex_c9 255 0 171).1 (by decide) (by decide) (by decide) (by decide)
      (by decide) (by decide),
   (rgbToHex_c9 300 0 0).2 (by decide)⟩

/-! ### Helper lemmas for the shade matcher -/

theorem deltaE2_nonneg (p q : LabQ) : 0 ≤ deltaE2 p q := by
  unfold deltaE2
  positivity

theorem deltaE_nonneg (p q : LabQ) : 0 ≤ deltaE p q :=
  Real.sqrt_nonneg _

theorem deltaE_sq (p q : LabQ) :
    (deltaE p q) ^ 2 = ((deltaE2 p q : ℚ) : ℝ) :=
  Real.sq_sqrt (by exact_mod_cast deltaE2_nonneg p q)

theorem deltaE_mono {lab : LabQ} {a b : LabQ}
    (h : deltaE2 lab a ≤ deltaE2 lab b) : deltaE lab a ≤ deltaE lab b :=
  Real.sqrt_le_sqrt (by exact_mod_cast h)

theorem deltaE_eq_iff (lab a b : LabQ) :
    deltaE lab a = deltaE lab b ↔ deltaE2 lab a = deltaE2 lab b := by
  unfold deltaE
  rw [Real.sqrt_inj (by exact_mod_cast deltaE2_nonneg lab a)
    (by exact_mod_cast deltaE2_nonneg lab b)]
  exact_mod_cast Iff.rfl

theorem shadeKeyLE_total (lab : LabQ) :
    IsTotal (ℕ × ShadeRecord) (shadeKeyLE lab) := by
  constructor
  intro a b
  unfold shadeKeyLE
  rcases lt_trichotomy (deltaE2 lab a.2.lab) (deltaE2 lab b.2.lab) with h | h | h
  · exact Or.inl (Or.inl h)
  · rcases Nat.le_total a.1 b.1 with hi | hi
    · exact Or.inl (Or.inr ⟨h, hi⟩)
    · exact Or.inr (Or.inr ⟨h.symm, hi⟩)
  · exact Or.inr (Or.inl h)

theorem shadeKeyLE_trans (lab : LabQ) :
    IsTrans (ℕ × ShadeRecord) (shadeKeyLE lab) := by
  constructor
  intro a b c hab hbc
  unfold shadeKeyLE at hab hbc ⊢
  rcases hab with h1 | ⟨h1, hi1⟩ <;> rcases hbc with h2 | ⟨h2, hi2⟩
  · exact Or.inl (h1.trans h2)
  · exact Or.inl (h2 ▸ h1)
  · exact Or.inl (h1 ▸ h2)
  · exact Or.inr ⟨h1.trans h2, hi1.trans hi2⟩

/-- C2: for every representative color and non-empty catalog, each
brand's ranked list has length at most `topN`, its `deltaE` sequence is
non-decreasing with equal-`deltaE` ties in catalog insertion order, and
each entry's `deltaE` is the CIE76 Euclidean distance
`sqrt((L1-L2)² + (A1-A2)² + (B1-B2)²)`. -/
theorem match_rank_c2 (lab : LabQ) (catalog : CatalogSnapshot)
    (brand : String) (topN : ℕ) (_hne : catalog ≠ []) :
    (rankBrand lab catalog brand topN).length ≤ topN ∧
    List.Pairwise
      (fun a b => deltaE lab a.2.lab ≤ deltaE lab b.2.lab ∧
        (deltaE lab a.2.lab = deltaE lab b.2.lab → a.1 ≤ b.1))
      (rankBrand lab catalog brand topN) ∧
    ∀ p ∈ rankBrand lab catalog brand topN,
      (deltaE lab p.2.lab) ^ 2 =
        ((lab.L : ℝ) - (p.2.lab.L : ℝ)) ^ 2 +
        ((lab.A : ℝ) - (p.2.lab.A : ℝ)) ^ 2 +
        ((lab.B : ℝ) - (p.2.lab.B : ℝ)) ^ 2 ∧
      0 ≤ deltaE lab p.2.lab := by
  haveI := shadeKeyLE_total lab
  haveI := shadeKeyLE_trans lab
  refine ⟨?_, ?_, ?_⟩
  · unfold rankBrand
    exact List.length_take_le _ _
  · have hs : List.Pairwise (shadeKeyLE lab)
        (List.insertionSort (shadeKeyLE lab)
          (catalog.enum.filter (fun p => p.2.brand = brand))) :=
      List.sorted_insertionSort (shadeKeyLE lab) _
    have hp : List.Pairwise (shadeKeyLE lab)
        (rankBrand lab catalog brand topN) := by
      unfold rankBrand
      exact hs.sublist (List.take_sublist _ _)
    refine hp.imp ?_
    intro a b hab
    rcases hab with h | ⟨heq, hidx⟩
    · refine ⟨deltaE_mono (le_of_lt h), fun he => ?_⟩
      have := (deltaE_eq_iff lab a.2.lab b.2.lab).mp he
      exact absurd this (ne_of_lt h)
    · exact ⟨deltaE_mono (le_of_eq heq), fun _ => hidx⟩
  · intro p _hp
    refine ⟨?_, deltaE_nonneg _ _⟩
    rw [deltaE_sq]
    unfold deltaE2
    push_cast
    ring

/-- Witness for C2 on the demonstration catalog. -/
theorem match_rank_witness_c2 :
    (rankBrand demoLab demoCatalog "fenty" 3).length ≤ 3 ∧
    List.Pairwise
      (fun a b => deltaE demoLab a.2.lab ≤ deltaE demoLab b.2.lab ∧
        (deltaE demoLab a.2.lab = deltaE demoLab b.2.lab → a.1 ≤ b.1))
      (rankBrand demoLab demoCatalog "fenty" 3) ∧
    ∀ p ∈ rankBrand demoLab demoCatalog "fenty" 3,
      (deltaE demoLab p.2.lab) ^ 2 =
        ((demoLab.L : ℝ) - (p.2.lab.L : ℝ)) ^ 2 +
        ((demoLab.A : ℝ) - (p.2.lab.A : ℝ)) ^ 2 +
        ((demoLab.B : ℝ) - (p.2.lab.B : ℝ)) ^ 2 ∧
      0 ≤ deltaE demoLab p.2.lab :=
  match_rank_c2 demoLab demoCatalog "fenty" 3 (by
    unfold demoCatalog
    exact List.cons_ne_nil _ _)

/-! ### Helper lemmas for the color space converter -/

/-- The seam inequality of the sRGB gamma curves: the power branch at the
decode threshold stays at or above the encode threshold `809/258400`
(= 0.04045/12.92). -/
theorem srgb_seam_key :
    (809 / 258400 : ℝ) ≤ ((1909 / 21100 : ℝ)) ^ (2.4 : ℝ) := by
  have hbase : (0 : ℝ) ≤ 1909 / 21100 := by norm_num
  have hexp : ((5 : ℝ))⁻¹ = (((5 : ℕ) : ℝ))⁻¹ := by norm_num
  have h1 : ((1909 / 21100 : ℝ)) ^ (2.4 : ℝ) =
      (((1909 / 21100 : ℝ)) ^ (12 : ℕ)) ^ ((5 : ℝ))⁻¹ := by
    rw [show (2.4 : ℝ) = (12 : ℝ) * (5 : ℝ)⁻¹ by norm_num,
      Real.rpow_mul hbase]
    norm_num [Real.rpow_natCast]
  have h2 : ((809 / 258400 : ℝ)) =
      (((809 / 258400 : ℝ)) ^ (5 : ℕ)) ^ ((5 : ℝ))⁻¹ := by
    rw [hexp, Real.pow_rpow_inv_natCast (by norm_num) (by norm_num)]
  rw [h1, h2]
  apply Real.rpow_le_rpow (by positivity) ?_ (by norm_num)
  norm_num

theorem srgbDecode_nonneg (c : ℝ) (h : 0 ≤ c) : 0 ≤ srgbDecode c := by
  unfold srgbDecode
  split
  · positivity
  · apply Real.rpow_nonneg
    have h1 : (0 : ℝ) ≤ c + 0.055 := by linarith
    have h2 : (0 : ℝ) < 1.055 := by norm_num
    exact div_nonneg h1 (le_of_lt h2)

/-- The gamma stage inverts exactly on nonnegative inputs. -/
theorem srgb_gamma_roundtrip (c : ℝ) (h : 0 ≤ c) :
    srgbEncode (srgbDecode c) = c := by
  unfold srgbDecode
  by_cases hc : c ≤ 0.04045
  · rw [if_pos hc]
    unfold srgbEncode
    have he : (12.92 : ℝ) * (c / 12.92) = c := by
      field_simp
    rw [he, if_pos hc]
  · rw [if_neg hc]
    push_neg at hc
    set base : ℝ := (c + 0.055) / 1.055 with hbase
    have hbgt : (1909 / 21100 : ℝ) < base := by
      rw [hbase]
      rw [lt_div_iff₀ (by norm_num : (0:ℝ) < 1.055)]
      linarith
    have hb0 : (0 : ℝ) ≤ base := le_trans (by norm_num) (le_of_lt hbgt)
    have hgt : (809 / 258400 : ℝ) < base ^ (2.4 : ℝ) :=
      lt_of_le_of_lt srgb_seam_key
        (Real.rpow_lt_rpow (by norm_num) hbgt (by norm_num))
    unfold srgbEncode
    have hcond : ¬ ((12.92 : ℝ) * base ^ (2.4 : ℝ) ≤ 0.04045) := by
      intro hle
      have h2 : (0.04045 / 12.92 : ℝ) = 809 / 258400 := by norm_num
      have h3 : base ^ (2.4 : ℝ) ≤ 0.04045 / 12.92 := by linarith
      rw [h2] at h3
      linarith
    rw [if_neg hcond]
    have hpow : (base ^ (2.4 : ℝ)) ^ ((2.4 : ℝ))⁻¹ = base := by
      rw [← Real.rpow_mul hb0,
        mul_inv_cancel₀ (by norm_num : (2.4 : ℝ) ≠ 0), Real.rpow_one]
    rw [hpow, hbase]
    field_simp

theorem detM_ne : detM ≠ 0 := by
  unfold detM m11 m12 m13 m21 m22 m23 m31 m32 m33
  norm_num

/-- The matrix stage inverts exactly (the inverse is the exact adjugate
over the determinant). -/
theorem matrix_roundtrip (r g b : ℝ) :
    linearOfXyz (xyzOfLinear r g b).1 (xyzOfLinear r g b).2.1
      (xyzOfLinear r g b).2.2 = (r, g, b) := by
  have hd := detM_ne
  unfold linearOfXyz xyzOfLinear
  simp only [Prod.mk.injEq]
  refine ⟨?_, ?_, ?_⟩ <;>
  · rw [div_eq_iff hd]
    unfold detM
    ring

/-- The `f` stage inverts exactly on nonnegative inputs. -/
theorem fLab_roundtrip (t : ℝ) (ht : 0 ≤ t) : fLabInv (fLab t) = t := by
  unfold fLab
  by_cases h : (6 / 29 : ℝ) ^ (3 : ℕ) < t
  · rw [if_pos h]
    have hexp : ((3 : ℝ))⁻¹ = (((3 : ℕ) : ℝ))⁻¹ := by norm_num
    have hc : (6 / 29 : ℝ) < t ^ ((3 : ℝ))⁻¹ := by
      have h1 : ((6 / 29 : ℝ) ^ (3 : ℕ)) ^ ((3 : ℝ))⁻¹ < t ^ ((3 : ℝ))⁻¹ :=
        Real.rpow_lt_rpow (by positivity) h (by norm_num)
      rw [hexp, Real.pow_rpow_inv_natCast (by norm_num) (by norm_num)]
        at h1
      rw [hexp]
      exact h1
    unfold fLabInv
    rw [if_pos hc, hexp]
    exact Real.rpow_inv_natCast_pow ht (by norm_num)
  · rw [if_neg h]
    push_neg at h
    have hle : t / (3 * (6 / 29 : ℝ) ^ (2 : ℕ)) + 4 / 29 ≤ 6 / 29 := by
      have hstep : t / (3 * (6 / 29 : ℝ) ^ (2 : ℕ)) ≤
          ((6 / 29 : ℝ) ^ (3 : ℕ)) / (3 * (6 / 29 : ℝ) ^ (2 : ℕ)) := by
        gcongr
      have h2 : ((6 / 29 : ℝ) ^ (3 : ℕ)) / (3 * (6 / 29 : ℝ) ^ (2 : ℕ)) =
          2 / 29 := by norm_num
      rw [h2] at hstep
      linarith
    unfold fLabInv
    rw [if_neg (not_lt.mpr hle)]
    field_simp
    ring

theorem linOf_nonneg (n : ℤ) : 0 ≤ linOf n := by
  unfold linOf
  apply srgbDecode_nonneg
  unfold chan01
  have h0 : (0 : ℤ) ≤ clampChan n := le_max_left _ _
  have h1 : (0 : ℝ) ≤ ((clampChan n : ℤ) : ℝ) := by exact_mod_cast h0
  exact div_nonneg h1 (by norm_num)

theorem xyzOfRgb_nonneg (c : RGB) :
    0 ≤ (xyzOfRgb c).1 ∧ 0 ≤ (xyzOfRgb c).2.1 ∧ 0 ≤ (xyzOfRgb c).2.2 := by
  have hr := linOf_nonneg c.r
  have hg := linOf_nonneg c.g
  have hb := linOf_nonneg c.b
  unfold xyzOfRgb xyzOfLinear m11 m12 m13 m21 m22 m23 m31 m32 m33
  refine ⟨?_, ?_, ?_⟩ <;>
    exact add_nonneg (add_nonneg (mul_nonneg (by norm_num) hr)
      (mul_nonneg (by norm_num) hg)) (mul_nonneg (by norm_num) hb)

theorem fcoord_of_rgbToLab (c : RGB) :
    fyOf (rgbToLab c) = fLab ((xyzOfRgb c).2.1 / whiteY) ∧
    fxOf (rgbToLab c) = fLab ((xyzOfRgb c).1 / whiteX) ∧
    fzOf (rgbToLab c) = fLab ((xyzOfRgb c).2.2 / whiteZ) := by
  simp only [fxOf, fyOf, fzOf, rgbToLab]
  refine ⟨by ring, by ring, by ring⟩

theorem xyzOfLab_rgbToLab (c : RGB) : xyzOfLab (rgbToLab c) = xyzOfRgb c := by
  obtain ⟨hy, hx, hz⟩ := fcoord_of_rgbToLab c
  obtain ⟨hX, hY, hZ⟩ := xyzOfRgb_nonneg c
  have hwX : (0 : ℝ) < whiteX := by unfold whiteX; norm_num
  have hwY : (0 : ℝ) < whiteY := by unfold whiteY; norm_num
  have hwZ : (0 : ℝ) < whiteZ := by unfold whiteZ; norm_num
  unfold xyzOfLab
  rw [hx, hy, hz,
    fLab_roundtrip _ (div_nonneg hX (le_of_lt hwX)),
    fLab_roundtrip _ (div_nonneg hY (le_of_lt hwY)),
    fLab_roundtrip _ (div_nonneg hZ (le_of_lt hwZ))]
  have h1 : whiteX * ((xyzOfRgb c).1 / whiteX) = (xyzOfRgb c).1 := by
    field_simp
  have h2 : whiteY * ((xyzOfRgb c).2.1 / whiteY) = (xyzOfRgb c).2.1 := by
    field_simp
  have h3 : whiteZ * ((xyzOfRgb c).2.2 / whiteZ) = (xyzOfRgb c).2.2 := by
    field_simp
  rw [h1, h2, h3]

theorem outChan_linOf (n : ℤ) (h0 : 0 ≤ n) (h255 : n ≤ 255) :
    outChan (linOf n) = n := by
  have hclamp : clampChan n = n := by
    unfold clampChan
    omega
  have hch : chan01 n = ((n : ℤ) : ℝ) / 255 := by
    unfold chan01
    rw [hclamp]
  have hc0 : (0 : ℝ) ≤ ((n : ℤ) : ℝ) / 255 := by
    have : (0 : ℝ) ≤ ((n : ℤ) : ℝ) := by exact_mod_cast h0
    positivity
  unfold outChan linOf
  rw [hch, srgb_gamma_roundtrip _ hc0]
  have hscale : (255 : ℝ) * (((n : ℤ) : ℝ) / 255) = ((n : ℤ) : ℝ) := by
    field_simp
  rw [hscale]
  have hcl : clampR ((n : ℤ) : ℝ) = ((n : ℤ) : ℝ) := by
    unfold clampR
    have hle : ((n : ℤ) : ℝ) ≤ 255 := by exact_mod_cast h255
    have hge : (0 : ℝ) ≤ ((n : ℤ) : ℝ) := by exact_mod_cast h0
    rw [min_eq_right hle, max_eq_right hge]
  rw [hcl]
  exact round_intCast n

/-- The full conversion round trip is exact on valid 8-bit inputs. -/
theorem rgb_roundtrip_exact (c : RGB) (hr0 : 0 ≤ c.r) (hr1 : c.r ≤ 255)
    (hg0 : 0 ≤ c.g) (hg1 : c.g ≤ 255) (hb0 : 0 ≤ c.b) (hb1 : c.b ≤ 255) :
    labToRgb (rgbToLab c) = c := by
  unfold labToRgb
  rw [xyzOfLab_rgbToLab]
  have hm := matrix_roundtrip (linOf c.r) (linOf c.g) (linOf c.b)
  unfold xyzOfRgb
  rw [hm]
  rw [show ((linOf c.r, linOf c.g, linOf c.b) : ℝ × ℝ × ℝ).1 = linOf c.r
      from rfl,
    show ((linOf c.r, linOf c.g, linOf c.b) : ℝ × ℝ × ℝ).2.1 = linOf c.g
      from rfl,
    show ((linOf c.r, linOf c.g, linOf c.b) : ℝ × ℝ × ℝ).2.2 = linOf c.b
      from rfl,
    outChan_linOf c.r hr0 hr1, outChan_linOf c.g hg0 hg1,
    outChan_linOf c.b hb0 hb1]

/-- C3: for every 8-bit RGB triple, `labToRgb (rgbToLab x)` differs from
`x` by at most 1 in each channel (both conversions are total pure Lean
functions); the embedded real-valued pipeline round-trips exactly, so the
per-channel error is 0 ≤ 1. -/
theorem rgb_lab_roundtrip_c3 (c : RGB) (hr0 : 0 ≤ c.r) (hr1 : c.r ≤ 255)
    (hg0 : 0 ≤ c.g) (hg1 : c.g ≤ 255) (hb0 : 0 ≤ c.b) (hb1 : c.b ≤ 255) :
    ((labToRgb (rgbToLab c)).r - c.r).natAbs ≤ 1 ∧
    ((labToRgb (rgbToLab c)).g - c.g).natAbs ≤ 1 ∧
    ((labToRgb (rgbToLab c)).b - c.b).natAbs ≤ 1 := by
  rw [rgb_roundtrip_exact c hr0 hr1 hg0 hg1 hb0 hb1]
  simp

/-- Witness for C3 at the triple (10, 128, 255). -/
theorem rgb_lab_roundtrip_witness_c3 :
    ((labToRgb (rgbToLab ⟨10, 128, 255⟩)).r - 10).natAbs ≤ 1 ∧
    ((labToRgb (rgbToLab ⟨10, 128, 255⟩)).g - 128).natAbs ≤ 1 ∧
    ((labToRgb (rgbToLab ⟨10, 128, 255⟩)).b - 255).natAbs ≤ 1 :=
  rgb_lab_roundtrip_c3 ⟨10, 128, 255⟩ (by decide) (by decide) (by decide)
    (by decide) (by decide) (by decide)

/-- C5: when all aggregated samples are numerically identical, `extract`
returns the single unique LAB value directly (the clustering is never
consulted — the result is fixed by the degenerate branch alone). -/
theorem extract_degenerate_c5 (seed : ℕ) (samples : List RGB) (s0 : RGB)
    (hne : samples ≠ []) (hall : ∀ s ∈ samples, s = s0) :
    extract seed samples = rgbToLab s0 := by
  cases samples with
  | nil => exact absurd rfl hne
  | cons s tail =>
      have hs : s = s0 := hall s (List.mem_cons_self _ _)
      have hcond : ∀ l ∈ rgbToLab s :: List.map rgbToLab tail,
          l = rgbToLab s := by
        intro l hl
        rcases List.mem_cons.mp hl with h | h
        · exact h
        · obtain ⟨x, hx, rfl⟩ := List.mem_map.mp h
          rw [hall x (List.mem_cons_of_mem _ hx), hs]
      unfold extract
      simp only [List.map_cons]
      rw [if_pos hcond, hs]

/-- Witness for C5: twenty-five samples all equal to RGB (200,150,120)
extract to exactly `rgbToLab (200,150,120)`. -/
theorem extract_degenerate_witness_c5 :
    extract 0 (List.replicate 25 ⟨200, 150, 120⟩) =
      rgbToLab ⟨200, 150, 120⟩ :=
  extract_degenerate_c5 0 _ _ (by simp)
    (fun _ hs => List.eq_of_mem_replicate hs)

/-- C6: two runs of `extract` on identical input samples with the same
fixed seed return identical LabColor values — the embedding threads the
seed explicitly and has no other input, so the output is a function of
(seed, samples) alone. -/
theorem extract_deterministic_c6 (seed1 seed2 : ℕ)
    (samples1 samples2 : List RGB) (hseed : seed1 = seed2)
    (hsamp : samples1 = samples2) :
    extract seed1 samples1 = extract seed2 samples2 := by
  rw [hseed, hsamp]

/-- Witness for C6: two runs at seed 42 on a two-sample list. -/
theorem extract_deterministic_witness_c6 :
    extract 42 [⟨200, 150, 120⟩, ⟨10, 20, 30⟩] =
      extract 42 [⟨200, 150, 120⟩, ⟨10, 20, 30⟩] :=
  extract_deterministic_c6 42 42 _ _ rfl rfl

end TrueColor
